import Mathlib

/-!
Verification of the ATS resume optimizer core (`app.py`).

The core pipeline is embedded shallowly:
* `clean_text` mirrors the regex cleanup (bullet deletion, whitespace
  collapse, strip) at the level of character lists.
* `extract_keywords` is parameterized by the external grammatical tagger
  (spaCy), modelled as a function from a string to a token sequence.
* `calculate_scores` mirrors the dual scoring algorithm; the external
  embedding model plus `util.cos_sim` composition is a parameter
  `sim : String → String → ℚ` giving the similarity value.
* `read_file` mirrors the extraction wrapper, with the two external
  document parsers (PyPDF2, python-docx) as `Except`-valued parameters
  (an `Except.error` models a raised exception).
* Python `round(x, 1)` (round half to even) is `round1` over ℚ.
-/

/-- Characters deleted by the bullet-glyph regex substitution in `clean_text`. -/
def isBullet (c : Char) : Bool :=
  c = '•' || c = '*' || c = '-' || c = '|' || c = '➢' || c = '▪'

/-- Whitespace characters matched by the regex class `\s` (the ASCII ones). -/
def isWs (c : Char) : Bool :=
  c = ' ' || c = '\t' || c = '\n' || c = '\r' || c = '\x0b' || c = '\x0c'

/-- `re.sub(r'\s+', ' ', ·)`: collapse each maximal whitespace run to one
space.  The boolean records whether the previous character was whitespace. -/
def collapseAux : Bool → List Char → List Char
  | _, [] => []
  | prevWs, c :: cs =>
    if isWs c then
      if prevWs then collapseAux true cs else ' ' :: collapseAux true cs
    else
      c :: collapseAux false cs

def collapse (l : List Char) : List Char := collapseAux false l

/-- Remove trailing whitespace (the right half of Python `str.strip()`). -/
def stripTrail : List Char → List Char
  | [] => []
  | c :: cs =>
    let r := stripTrail cs
    if isWs c ∧ r = [] then [] else c :: r

/-- Python `str.strip()`: drop leading and trailing whitespace. -/
def stripEnds (l : List Char) : List Char := stripTrail (l.dropWhile isWs)

/-- `clean_text` from `app.py`: delete bullet glyphs, collapse whitespace
runs to single spaces, strip the ends. -/
def clean_text (s : String) : String :=
  String.mk (stripEnds (collapse (s.data.filter (fun c => !isBullet c))))

/-- A token as returned by the grammatical tagger: surface text,
part-of-speech tag, stop-word flag (spaCy `token.text`, `token.pos_`,
`token.is_stop`). -/
structure Token where
  text : String
  pos : String
  is_stop : Bool
deriving DecidableEq, Repr

/-- The fixed ignore set in `extract_keywords`. -/
def ignored : Finset String :=
  {"team", "work", "skills", "experience", "role", "time", "services",
   "solutions", "environment"}

/-- `extract_keywords` from `app.py`, parameterized by the tagger: run the
tagger on the lower-cased text and collect surface texts of non-stop
noun/proper-noun tokens of length > 2 outside the ignore set. -/
def extract_keywords (tagger : String → List Token) (text : String) :
    Finset String :=
  ((tagger text.toLower).filter (fun t =>
      (t.pos ∈ ["NOUN", "PROPN"]) && !t.is_stop && t.text.length > 2
        && t.text ∉ ignored)).map (fun t => t.text) |>.toFinset

/-- Rounding to the nearest integer as Python `round` does it: round half
to even. -/
def pyRound (q : ℚ) : ℤ :=
  let f := ⌊q⌋
  let r := q - f
  if r < 1/2 then f
  else if 1/2 < r then f + 1
  else if 2 ∣ f then f else f + 1

/-- Python `round(q, 1)`: round to one decimal place. -/
def round1 (q : ℚ) : ℚ := (pyRound (q * 10) : ℚ) / 10

/-- Lines 105–111 of `app.py`: the exact-match keyword score. -/
def keyword_score_calc (res_keys jd_keys : Finset String) : ℚ :=
  if jd_keys.card = 0 then 0
  else (((res_keys ∩ jd_keys).card : ℚ) / (jd_keys.card : ℚ)) * 100

/-- The dictionary returned by `calculate_scores`. -/
structure ScoreReport where
  final : ℚ
  keyword : ℚ
  semantic : ℚ
  missing : Finset String
  matched : Finset String
deriving DecidableEq

/-- `calculate_scores` from `app.py`, parameterized by the tagger and by
`sim`, the composition of the sentence-transformer encoder with
`util.cos_sim` (so `sim a b` is the cosine-similarity scalar of the
embeddings of `a` and `b`). -/
def calculate_scores (tagger : String → List Token)
    (sim : String → String → ℚ) (resume_text jd_text : String) :
    ScoreReport :=
  let clean_resume := clean_text resume_text
  let clean_jd := clean_text jd_text
  let res_keys := extract_keywords tagger clean_resume
  let jd_keys := extract_keywords tagger clean_jd
  let keyword_score := keyword_score_calc res_keys jd_keys
  let semantic_score := sim clean_resume clean_jd * 100
  let final_score := keyword_score * 0.6 + semantic_score * 0.4
  { final := round1 final_score
    keyword := round1 keyword_score
    semantic := round1 semantic_score
    missing := jd_keys \ res_keys
    matched := res_keys ∩ jd_keys }

/-- The uploaded file as `read_file` sees it: only its declared content
type matters to the control flow; the payload stays opaque behind the
parser parameters. -/
structure UploadedFile where
  type : String
deriving DecidableEq

/-- Python `needle in hay` substring test. -/
def containsSub (hay needle : String) : Bool := (hay.splitOn needle).length > 1

/-- Lines 66–69 of `app.py`: concatenate the page texts, a page with no
extractable text (`extract_text()` returns `None`) contributing `""`. -/
def pagesConcat (pages : List (Option String)) : String :=
  pages.foldl (fun acc p => acc ++ p.getD "") ""

/-- `read_file` from `app.py`, parameterized by the two external parsers.
`pdfParse f` models `PyPDF2.PdfReader` plus the page loop (per page the
`extract_text()` result, `Except.error` for a raised exception); `docxParse
f` models `docx.Document` plus the paragraph list.  The `try/except`
returns `None` on any exception; a content type matching neither branch
falls through to the implicit `None` of Python. -/
def read_file (pdfParse : UploadedFile → Except Unit (List (Option String)))
    (docxParse : UploadedFile → Except Unit (List String))
    (f : UploadedFile) : Option String :=
  if f.type = "application/pdf" then
    match pdfParse f with
    | .ok pages => some (pagesConcat pages)
    | .error _ => none
  else if containsSub f.type "wordprocessingml" then
    match docxParse f with
    | .ok paras => some (String.intercalate "\n" paras)
    | .error _ => none
  else none

/-- Python truthiness of `resume_text : Optional[str]` at line 154: `None`
and `""` are both falsy. -/
def pyTruthyStr : Option String → Bool
  | none => false
  | some s => decide (s ≠ "")

/-- Lines 152–156 of `app.py`: after `read_file` returns, the analysis
runs only when the extracted text is truthy; otherwise no report is
produced. -/
def report_of_extraction (tagger : String → List Token)
    (sim : String → String → ℚ) (jd_input : String)
    (resume_text : Option String) : Option ScoreReport :=
  match resume_text with
  | none => none
  | some t => if t ≠ "" then some (calculate_scores tagger sim t jd_input) else none

/-- Dot product of two equal-length real vectors, the `List` form of what
`util.cos_sim` computes. -/
def dotl (v w : List ℝ) : ℝ := (List.zipWith (fun a b => a * b) v w).sum

/-- Cosine similarity of two embedding vectors, as computed by
`util.cos_sim`: dot product over the product of Euclidean norms. -/
noncomputable def cosSim (v w : List ℝ) : ℝ :=
  dotl v w / (Real.sqrt (dotl v v) * Real.sqrt (dotl w w))

/-- A deterministic embedding model used to realize a negative cosine
similarity between two distinct texts: the text "a" is encoded as the
one-dimensional vector [1], any other text as [-1]. -/
noncomputable def encCE : String → List ℝ :=
  fun s => if s = "a" then [1] else [-1]

/-- The similarity values of `encCE`, as the rational pipeline parameter:
cosine 1 on equal texts, -1 on distinct ones (proved exact against
`cosSim` of `encCE` on every pair of texts drawn from "a" and "b"). -/
def simCE : String → String → ℚ :=
  fun x y => if x = y then 1 else -1

/-! ## Claim theorems -/

/-- C1: the combiner computes `final = round1(keyword_score * 0.6 +
semantic_score * 0.4)` from the un-rounded sub-scores, rounding only the
result; in particular the weighted sum of 80 and 50 rounds to 68. -/
theorem C1_final_score_weighting (tagger : String → List Token)
    (sim : String → String → ℚ) (r j : String) :
    (calculate_scores tagger sim r j).final =
      round1 (keyword_score_calc (extract_keywords tagger (clean_text r))
          (extract_keywords tagger (clean_text j)) * 0.6
        + sim (clean_text r) (clean_text j) * 100 * 0.4)
    ∧ round1 ((80 : ℚ) * 0.6 + (50 : ℚ) * 0.4) = 68 := by
  refine ⟨rfl, ?_⟩
  norm_num [round1, pyRound]

/-- C2: with an empty job-description keyword set the reported keyword
score is 0 and the missing set is empty (defined division-by-zero policy);
otherwise the raw keyword score is `100 * |resume ∩ jd| / |jd|`, and the
report carries its rounding. -/
theorem C2_zero_jd_keyword_policy (tagger : String → List Token)
    (sim : String → String → ℚ) (r j : String)
    (h : extract_keywords tagger (clean_text j) = ∅) :
    (calculate_scores tagger sim r j).keyword = 0 ∧
    (calculate_scores tagger sim r j).missing = ∅ ∧
    (∀ rk jdk : Finset String, keyword_score_calc rk jdk =
      if jdk = ∅ then 0 else 100 * ((rk ∩ jdk).card : ℚ) / (jdk.card : ℚ)) ∧
    (∀ rk jdk : Finset String, jdk ≠ ∅ →
      keyword_score_calc rk jdk = 100 * ((rk ∩ jdk).card : ℚ) / (jdk.card : ℚ)) := by
  refine ⟨?_, ?_, ?_, ?_⟩
  · show round1 (keyword_score_calc _ _) = 0
    rw [h]
    norm_num [keyword_score_calc, round1, pyRound]
  · show extract_keywords tagger (clean_text j) \ _ = ∅
    rw [h]
    exact Finset.empty_sdiff _
  · intro rk jdk
    by_cases hc : jdk = ∅
    · subst hc
      simp [keyword_score_calc]
    · rw [keyword_score_calc, if_neg (fun h0 => hc (Finset.card_eq_zero.mp h0)), if_neg hc]
      ring
  · intro rk jdk hne
    rw [keyword_score_calc, if_neg (fun hc => hne (Finset.card_eq_zero.mp hc))]
    ring

/-- C2 witness: a tagger producing no tokens yields an empty jd keyword
set, keyword score 0 and empty missing set. -/
theorem C2_zero_jd_keyword_policy_witness :
    (calculate_scores (fun _ => []) (fun _ _ => 0) "" "").keyword = 0 ∧
    (calculate_scores (fun _ => []) (fun _ _ => 0) "" "").missing = ∅ :=
  ⟨(C2_zero_jd_keyword_policy (fun _ => []) (fun _ _ => 0) "" "" rfl).1,
   (C2_zero_jd_keyword_policy (fun _ => []) (fun _ _ => 0) "" "" rfl).2.1⟩

/-- C3: the reported matched/missing sets are the intersection and the
difference, so they partition the jd keyword set and the matched set lies
inside the resume keyword set. -/
theorem C3_matched_missing_set_laws (tagger : String → List Token)
    (sim : String → String → ℚ) (r j : String) :
    (calculate_scores tagger sim r j).matched =
      extract_keywords tagger (clean_text r) ∩ extract_keywords tagger (clean_text j) ∧
    (calculate_scores tagger sim r j).missing =
      extract_keywords tagger (clean_text j) \ extract_keywords tagger (clean_text r) ∧
    (calculate_scores tagger sim r j).matched ∪ (calculate_scores tagger sim r j).missing =
      extract_keywords tagger (clean_text j) ∧
    (calculate_scores tagger sim r j).matched ∩ (calculate_scores tagger sim r j).missing = ∅ ∧
    (calculate_scores tagger sim r j).matched ⊆ extract_keywords tagger (clean_text r) := by
  refine ⟨rfl, rfl, ?_, ?_, Finset.inter_subset_left⟩
  · show _ ∩ _ ∪ _ \ _ = _
    ext x
    simp only [Finset.mem_union, Finset.mem_inter, Finset.mem_sdiff]
    tauto
  · show (_ ∩ _) ∩ (_ \ _) = ∅
    ext x
    simp only [Finset.mem_inter, Finset.mem_sdiff, Finset.not_mem_empty, iff_false]
    tauto

/-- C4: membership in `extract_keywords` holds exactly for surface texts
of tagger tokens that are common or proper nouns, not stop words, longer
than two characters and outside the ignore list. -/
theorem C4_extract_keywords_membership (tagger : String → List Token)
    (text : String) (s : String) :
    s ∈ extract_keywords tagger text ↔
      ∃ t ∈ tagger text.toLower, t.text = s ∧
        (t.pos = "NOUN" ∨ t.pos = "PROPN") ∧ t.is_stop = false ∧
        2 < s.length ∧ s ∉ ignored := by
  unfold extract_keywords
  simp only [List.mem_toFinset, List.mem_map, List.mem_filter, Bool.and_eq_true,
    Bool.not_eq_true', decide_eq_true_eq, List.mem_cons, List.not_mem_nil, or_false,
    gt_iff_lt]
  constructor
  · rintro ⟨t, ⟨ht, ⟨⟨hpos, hstop⟩, hlen⟩, hig⟩, rfl⟩
    exact ⟨t, ht, rfl, hpos, hstop, hlen, hig⟩
  · rintro ⟨t, ht, rfl, hpos, hstop, hlen, hig⟩
    exact ⟨t, ⟨ht, ⟨⟨hpos, hstop⟩, hlen⟩, hig⟩, rfl⟩

/-- C8: `calculate_scores` is deterministic: two calls on identical inputs
with the same tagger and embedding model yield reports agreeing on every
field. -/
theorem C8_calculate_scores_deterministic (tagger : String → List Token)
    (sim : String → String → ℚ) (r j : String) (rep1 rep2 : ScoreReport)
    (h1 : rep1 = calculate_scores tagger sim r j)
    (h2 : rep2 = calculate_scores tagger sim r j) :
    rep1.final = rep2.final ∧ rep1.keyword = rep2.keyword ∧
    rep1.semantic = rep2.semantic ∧ rep1.matched = rep2.matched ∧
    rep1.missing = rep2.missing := by
  subst h1 h2
  exact ⟨rfl, rfl, rfl, rfl, rfl⟩

/-- C8 witness: two runs of the pipeline on the same concrete inputs agree
on every report field. -/
theorem C8_calculate_scores_deterministic_witness :
    (calculate_scores (fun _ => []) (fun _ _ => 0) "" "").final =
      (calculate_scores (fun _ => []) (fun _ _ => 0) "" "").final ∧
    (calculate_scores (fun _ => []) (fun _ _ => 0) "" "").keyword =
      (calculate_scores (fun _ => []) (fun _ _ => 0) "" "").keyword ∧
    (calculate_scores (fun _ => []) (fun _ _ => 0) "" "").semantic =
      (calculate_scores (fun _ => []) (fun _ _ => 0) "" "").semantic ∧
    (calculate_scores (fun _ => []) (fun _ _ => 0) "" "").matched =
      (calculate_scores (fun _ => []) (fun _ _ => 0) "" "").matched ∧
    (calculate_scores (fun _ => []) (fun _ _ => 0) "" "").missing =
      (calculate_scores (fun _ => []) (fun _ _ => 0) "" "").missing :=
  C8_calculate_scores_deterministic (fun _ => []) (fun _ _ => 0) "" "" _ _ rfl
    rfl

/-- C9: the caller gates the pipeline on Python truthiness of the
extracted text, so a successful extraction of the empty string is
indistinguishable from the failure value `None`: in both cases no report
is produced, and in general a report is absent exactly when the extracted
text is falsy. -/
theorem C9_empty_extraction_skipped (tagger : String → List Token)
    (sim : String → String → ℚ) (jd : String) :
    report_of_extraction tagger sim jd (some "") = none ∧
    report_of_extraction tagger sim jd none = none ∧
    pyTruthyStr (some "") = pyTruthyStr none ∧
    (∀ rt : Option String,
      report_of_extraction tagger sim jd rt = none ↔ pyTruthyStr rt = false) := by
  refine ⟨rfl, rfl, rfl, ?_⟩
  intro rt
  cases rt with
  | none => simp [report_of_extraction, pyTruthyStr]
  | some t =>
    by_cases h : t = "" <;> simp [report_of_extraction, pyTruthyStr, h]

/-- C10: `read_file` is total into `Option String` (exceptions are caught,
a foreign content type silently falls through), and it returns `none`
exactly when the content type matches neither branch or the matching
parser raises. -/
theorem C10_read_file_none_characterization
    (pdfParse : UploadedFile → Except Unit (List (Option String)))
    (docxParse : UploadedFile → Except Unit (List String))
    (f : UploadedFile) :
    read_file pdfParse docxParse f = none ↔
      (f.type ≠ "application/pdf" ∧ containsSub f.type "wordprocessingml" = false)
      ∨ (f.type = "application/pdf" ∧ pdfParse f = Except.error ())
      ∨ (f.type ≠ "application/pdf" ∧ containsSub f.type "wordprocessingml" = true
          ∧ docxParse f = Except.error ()) := by
  unfold read_file
  by_cases h1 : f.type = "application/pdf"
  · cases hp : pdfParse f with
    | ok pages => simp [h1, hp]
    | error e => cases e; simp [h1, hp]
  · by_cases h2 : containsSub f.type "wordprocessingml"
    · cases hd : docxParse f with
      | ok paras => simp [h1, h2, hd]
      | error e => cases e; simp [h1, h2, hd]
    · simp [h1, h2]

/-! ## Rounding and bound lemmas -/

theorem pyRound_cases (q : ℚ) :
    pyRound q = ⌊q⌋ ∨ (pyRound q = ⌊q⌋ + 1 ∧ 1/2 ≤ q - ⌊q⌋) := by
  have hd : pyRound q =
      if q - ⌊q⌋ < 1/2 then ⌊q⌋
      else if 1/2 < q - ⌊q⌋ then ⌊q⌋ + 1
      else if 2 ∣ ⌊q⌋ then ⌊q⌋ else ⌊q⌋ + 1 := rfl
  rw [hd]
  split_ifs with h1 h2 h3
  · exact Or.inl rfl
  · exact Or.inr ⟨rfl, le_of_lt h2⟩
  · exact Or.inl rfl
  · exact Or.inr ⟨rfl, not_lt.mp h1⟩

theorem pyRound_nonneg {q : ℚ} (h : 0 ≤ q) : 0 ≤ pyRound q := by
  have hfl : 0 ≤ ⌊q⌋ := Int.floor_nonneg.mpr h
  rcases pyRound_cases q with hc | ⟨hc, _⟩ <;> omega

theorem pyRound_le {q : ℚ} {n : ℤ} (h : q ≤ (n : ℚ)) : pyRound q ≤ n := by
  have hfl : ⌊q⌋ ≤ n := by
    have h1 := Int.floor_mono h
    rwa [Int.floor_intCast] at h1
  rcases pyRound_cases q with hc | ⟨hc, hr⟩
  · omega
  · by_contra hcon
    have heq : ⌊q⌋ = n := by omega
    have hfle : (⌊q⌋ : ℚ) ≤ q := Int.floor_le q
    rw [heq] at hr
    linarith

theorem round1_nonneg {q : ℚ} (h : 0 ≤ q) : 0 ≤ round1 q := by
  unfold round1
  have hp : 0 ≤ pyRound (q * 10) := pyRound_nonneg (by positivity)
  have hc : (0 : ℚ) ≤ (pyRound (q * 10) : ℚ) := by exact_mod_cast hp
  positivity

theorem round1_le_hundred {q : ℚ} (h : q ≤ 100) : round1 q ≤ 100 := by
  unfold round1
  have h10 : q * 10 ≤ ((1000 : ℤ) : ℚ) := by push_cast; linarith
  have hp := pyRound_le h10
  have hc : (pyRound (q * 10) : ℚ) ≤ 1000 := by exact_mod_cast hp
  linarith

theorem keyword_score_calc_nonneg (rk jdk : Finset String) :
    0 ≤ keyword_score_calc rk jdk := by
  unfold keyword_score_calc
  split
  · exact le_refl 0
  · positivity

theorem keyword_score_calc_le_hundred (rk jdk : Finset String) :
    keyword_score_calc rk jdk ≤ 100 := by
  unfold keyword_score_calc
  split_ifs with h
  · norm_num
  · have hpos : (0 : ℚ) < (jdk.card : ℚ) := by
      exact_mod_cast Nat.pos_of_ne_zero h
    have hle : ((rk ∩ jdk).card : ℚ) ≤ (jdk.card : ℚ) := by
      exact_mod_cast Finset.card_le_card Finset.inter_subset_right
    have hdiv : ((rk ∩ jdk).card : ℚ) / (jdk.card : ℚ) ≤ 1 :=
      (div_le_one hpos).mpr hle
    nlinarith

/-- C7: adding to the jd keyword set a keyword present in the resume
cannot decrease the keyword score; adding one absent from the resume
cannot increase it. -/
theorem C7_keyword_score_monotone (res jd : Finset String) (k : String)
    (hk : k ∉ jd) :
    if k ∈ res then
      keyword_score_calc res jd ≤ keyword_score_calc res (insert k jd)
    else
      keyword_score_calc res (insert k jd) ≤ keyword_score_calc res jd := by
  have hcard : (insert k jd).card = jd.card + 1 := Finset.card_insert_of_not_mem hk
  by_cases hm : k ∈ res
  · rw [if_pos hm]
    have hkni : k ∉ res ∩ jd := fun hx => hk (Finset.mem_inter.mp hx).2
    unfold keyword_score_calc
    rw [Finset.inter_insert_of_mem hm, Finset.card_insert_of_not_mem hkni, hcard]
    by_cases hn : jd.card = 0
    · rw [if_pos hn, if_neg (by omega), hn]
      positivity
    · rw [if_neg hn, if_neg (by omega)]
      have hmn : ((res ∩ jd).card : ℚ) ≤ (jd.card : ℚ) := by
        exact_mod_cast Finset.card_le_card Finset.inter_subset_right
      have hnpos : (0 : ℚ) < (jd.card : ℚ) := by
        exact_mod_cast Nat.pos_of_ne_zero hn
      push_cast
      rw [div_mul_eq_mul_div, div_mul_eq_mul_div,
        div_le_div_iff₀ hnpos (by linarith)]
      nlinarith
  · rw [if_neg hm]
    unfold keyword_score_calc
    rw [Finset.inter_insert_of_not_mem hm, hcard]
    by_cases hn : jd.card = 0
    · rw [if_pos hn, if_neg (by omega)]
      have hji : res ∩ jd = ∅ := by
        rw [Finset.card_eq_zero.mp hn, Finset.inter_empty]
      rw [hji, hn]
      norm_num
    · rw [if_neg hn, if_neg (by omega)]
      have hnpos : (0 : ℚ) < (jd.card : ℚ) := by
        exact_mod_cast Nat.pos_of_ne_zero hn
      have hm0 : (0 : ℚ) ≤ ((res ∩ jd).card : ℚ) := Nat.cast_nonneg _
      push_cast
      rw [div_mul_eq_mul_div, div_mul_eq_mul_div,
        div_le_div_iff₀ (by linarith) hnpos]
      nlinarith

/-- C7 witness: inserting the resume keyword "python" into an empty jd
keyword set takes the score from 0 to 100, a non-decrease. -/
theorem C7_keyword_score_monotone_witness :
    (("python" : String) ∉ (∅ : Finset String)) ∧
    (if ("python" : String) ∈ ({"python"} : Finset String) then
      keyword_score_calc {"python"} ∅ ≤
        keyword_score_calc {"python"} (insert "python" ∅)
    else
      keyword_score_calc {"python"} (insert "python" ∅) ≤
        keyword_score_calc {"python"} ∅) :=
  ⟨by decide, C7_keyword_score_monotone {"python"} ∅ "python" (by decide)⟩

/-- C6 counterexample: the deterministic embedding model `encCE` encodes
the two distinct texts "a" and "b" as the vectors [1] and [-1]; the
similarity function `simCE` agrees with the real cosine of the encoded
vectors on every pair of texts drawn from "a" and "b" (in particular
cosine 1 on equal texts), the pair of distinct texts has cosine -1, and
the pipeline run on the distinct inputs "a" and "b" with that similarity
reports a final score of -40, violating `0 ≤ final_score`. -/
theorem C6_score_bounds_counterexample :
    ("a" : String) ≠ "b" ∧
    clean_text "a" = "a" ∧ clean_text "b" = "b" ∧
    ((simCE "a" "a" : ℚ) : ℝ) = cosSim (encCE "a") (encCE "a") ∧
    ((simCE "a" "b" : ℚ) : ℝ) = cosSim (encCE "a") (encCE "b") ∧
    ((simCE "b" "a" : ℚ) : ℝ) = cosSim (encCE "b") (encCE "a") ∧
    ((simCE "b" "b" : ℚ) : ℝ) = cosSim (encCE "b") (encCE "b") ∧
    cosSim (encCE "a") (encCE "b") = -1 ∧
    (calculate_scores (fun _ => []) simCE "a" "b").final = -40 ∧
    ¬ (0 ≤ (calculate_scores (fun _ => []) simCE "a" "b").final) := by
  have hea : encCE "a" = [(1 : ℝ)] := by
    show (if ("a" : String) = "a" then [(1 : ℝ)] else [-1]) = [1]
    rw [if_pos rfl]
  have heb : encCE "b" = [(-1 : ℝ)] := by
    show (if ("b" : String) = "a" then [(1 : ℝ)] else [-1]) = [-1]
    rw [if_neg (by decide)]
  have hcos11 : cosSim [(1 : ℝ)] [(1 : ℝ)] = 1 := by
    unfold cosSim dotl
    simp [Real.sqrt_one]
  have hcosmm : cosSim [(-1 : ℝ)] [(-1 : ℝ)] = 1 := by
    unfold cosSim dotl
    simp [Real.sqrt_one]
  have hcos1m : cosSim [(1 : ℝ)] [(-1 : ℝ)] = -1 := by
    unfold cosSim dotl
    simp [Real.sqrt_one]
  have hcosm1 : cosSim [(-1 : ℝ)] [(1 : ℝ)] = -1 := by
    unfold cosSim dotl
    simp [Real.sqrt_one]
  have hsaa : simCE "a" "a" = 1 := by
    show (if ("a" : String) = "a" then (1 : ℚ) else -1) = 1
    rw [if_pos rfl]
  have hsab : simCE "a" "b" = -1 := by
    show (if ("a" : String) = "b" then (1 : ℚ) else -1) = -1
    rw [if_neg (by decide)]
  have hsba : simCE "b" "a" = -1 := by
    show (if ("b" : String) = "a" then (1 : ℚ) else -1) = -1
    rw [if_neg (by decide)]
  have hsbb : simCE "b" "b" = 1 := by
    show (if ("b" : String) = "b" then (1 : ℚ) else -1) = 1
    rw [if_pos rfl]
  have hca : clean_text "a" = "a" := by decide
  have hcb : clean_text "b" = "b" := by decide
  have hfin : (calculate_scores (fun _ => []) simCE "a" "b").final =
      round1 (keyword_score_calc (∅ : Finset String) ∅ * 0.6 +
        simCE (clean_text "a") (clean_text "b") * 100 * 0.4) := rfl
  rw [hca, hcb, hsab] at hfin
  have hval : (calculate_scores (fun _ => []) simCE "a" "b").final = -40 := by
    rw [hfin]
    norm_num [keyword_score_calc, round1, pyRound]
  refine ⟨by decide, hca, hcb, ?_, ?_, ?_, ?_, ?_, hval, ?_⟩
  · rw [hea, hcos11, hsaa]
    norm_num
  · rw [hea, heb, hcos1m, hsab]
    norm_num
  · rw [heb, hea, hcosm1, hsba]
    norm_num
  · rw [heb, hcosmm, hsbb]
    norm_num
  · rw [hea, heb]
    exact hcos1m
  · rw [hval]
    norm_num

/-- C6 amended: the keyword score always lies in [0, 100]; the final score
lies in [0, 100] whenever the similarity value produced by the embedding
model lies in [0, 1] (as the spec expects empirically), but not for
arbitrary embedding vectors. -/
theorem C6_amended_score_bounds (tagger : String → List Token)
    (sim : String → String → ℚ) (r j : String) :
    0 ≤ (calculate_scores tagger sim r j).keyword ∧
    (calculate_scores tagger sim r j).keyword ≤ 100 ∧
    (0 ≤ sim (clean_text r) (clean_text j) →
      sim (clean_text r) (clean_text j) ≤ 1 →
      0 ≤ (calculate_scores tagger sim r j).final ∧
        (calculate_scores tagger sim r j).final ≤ 100) := by
  have hks0 : 0 ≤ keyword_score_calc (extract_keywords tagger (clean_text r))
      (extract_keywords tagger (clean_text j)) := keyword_score_calc_nonneg _ _
  have hks1 : keyword_score_calc (extract_keywords tagger (clean_text r))
      (extract_keywords tagger (clean_text j)) ≤ 100 :=
    keyword_score_calc_le_hundred _ _
  refine ⟨round1_nonneg hks0, round1_le_hundred hks1, fun h0 h1 => ⟨?_, ?_⟩⟩
  · show 0 ≤ round1 _
    apply round1_nonneg
    nlinarith
  · show round1 _ ≤ 100
    apply round1_le_hundred
    nlinarith

/-- C6 amended witness: with a constant similarity of 1 the reported
keyword and final scores of a concrete run lie in [0, 100]. -/
theorem C6_amended_score_bounds_witness :
    0 ≤ (calculate_scores (fun _ => []) (fun _ _ => 1) "" "").keyword ∧
    (calculate_scores (fun _ => []) (fun _ _ => 1) "" "").keyword ≤ 100 ∧
    0 ≤ (calculate_scores (fun _ => []) (fun _ _ => 1) "" "").final ∧
    (calculate_scores (fun _ => []) (fun _ _ => 1) "" "").final ≤ 100 :=
  ⟨(C6_amended_score_bounds (fun _ => []) (fun _ _ => 1) "" "").1,
   (C6_amended_score_bounds (fun _ => []) (fun _ _ => 1) "" "").2.1,
   ((C6_amended_score_bounds (fun _ => []) (fun _ _ => 1) "" "").2.2
     zero_le_one le_rfl).1,
   ((C6_amended_score_bounds (fun _ => []) (fun _ _ => 1) "" "").2.2
     zero_le_one le_rfl).2⟩

/-! ## Idempotence of the normalizer (C5) -/

/-- The list does not start with a whitespace character. -/
def noLeadWs : List Char → Bool
  | [] => true
  | c :: _ => !isWs c

/-- No two adjacent whitespace characters. -/
def noTwoWs : List Char → Bool
  | [] => true
  | c :: cs => (!isWs c || noLeadWs cs) && noTwoWs cs

/-- The list does not end with a whitespace character. -/
def noTrailWs : List Char → Bool
  | [] => true
  | [c] => !isWs c
  | _ :: c :: cs => noTrailWs (c :: cs)

theorem noTwoWs_cons (c : Char) (cs : List Char) :
    noTwoWs (c :: cs) = ((!isWs c || noLeadWs cs) && noTwoWs cs) := rfl

theorem collapseAux_cons_ws {c : Char} (h : isWs c = true) (b : Bool)
    (cs : List Char) :
    collapseAux b (c :: cs) =
      if b then collapseAux true cs else ' ' :: collapseAux true cs := by
  simp [collapseAux, h]

theorem collapseAux_cons_not_ws {c : Char} (h : isWs c = false) (b : Bool)
    (cs : List Char) :
    collapseAux b (c :: cs) = c :: collapseAux false cs := by
  simp [collapseAux, h]

theorem stripTrail_cons (c : Char) (cs : List Char) :
    stripTrail (c :: cs) =
      if isWs c ∧ stripTrail cs = [] then [] else c :: stripTrail cs := rfl

theorem mem_collapseAux {c : Char} :
    ∀ {l : List Char} {b : Bool}, c ∈ collapseAux b l →
      c = ' ' ∨ (c ∈ l ∧ isWs c = false) := by
  intro l
  induction l with
  | nil => intro b h; simp [collapseAux] at h
  | cons d ds ih =>
    intro b h
    by_cases hws : isWs d = true
    · rw [collapseAux_cons_ws hws] at h
      cases b with
      | true =>
        rw [if_pos rfl] at h
        rcases ih h with h1 | ⟨h1, h2⟩
        · exact Or.inl h1
        · exact Or.inr ⟨List.mem_cons_of_mem d h1, h2⟩
      | false =>
        rw [if_neg Bool.false_ne_true] at h
        rcases List.mem_cons.mp h with h1 | h1
        · exact Or.inl h1
        · rcases ih h1 with h2 | ⟨h2, h3⟩
          · exact Or.inl h2
          · exact Or.inr ⟨List.mem_cons_of_mem d h2, h3⟩
    · have hf : isWs d = false := by simpa using hws
      rw [collapseAux_cons_not_ws hf] at h
      rcases List.mem_cons.mp h with h1 | h1
      · subst h1
        exact Or.inr ⟨List.mem_cons_self c ds, hf⟩
      · rcases ih h1 with h2 | ⟨h2, h3⟩
        · exact Or.inl h2
        · exact Or.inr ⟨List.mem_cons_of_mem d h2, h3⟩

theorem noLeadWs_collapseAux_true (l : List Char) :
    noLeadWs (collapseAux true l) = true := by
  induction l with
  | nil => rfl
  | cons d ds ih =>
    by_cases hws : isWs d = true
    · rw [collapseAux_cons_ws hws]
      simpa using ih
    · have hf : isWs d = false := by simpa using hws
      rw [collapseAux_cons_not_ws hf]
      simp [noLeadWs, hf]

theorem noTwoWs_collapseAux (l : List Char) :
    ∀ b : Bool, noTwoWs (collapseAux b l) = true := by
  induction l with
  | nil => intro b; rfl
  | cons d ds ih =>
    intro b
    by_cases hws : isWs d = true
    · rw [collapseAux_cons_ws hws]
      cases b with
      | true => simpa using ih true
      | false =>
        rw [if_neg Bool.false_ne_true, noTwoWs_cons]
        simp [noLeadWs_collapseAux_true ds, ih true]
    · have hf : isWs d = false := by simpa using hws
      rw [collapseAux_cons_not_ws hf, noTwoWs_cons]
      simp [hf, ih false]

theorem mem_of_mem_dropWhileChar {p : Char → Bool} {c : Char} :
    ∀ {l : List Char}, c ∈ l.dropWhile p → c ∈ l := by
  intro l
  induction l with
  | nil => intro h; exact h
  | cons d ds ih =>
    intro h
    rw [List.dropWhile_cons] at h
    by_cases hd : p d = true
    · rw [if_pos hd] at h
      exact List.mem_cons_of_mem d (ih h)
    · rw [if_neg hd] at h
      exact h

theorem noLeadWs_dropWhile (l : List Char) :
    noLeadWs (l.dropWhile isWs) = true := by
  induction l with
  | nil => rfl
  | cons d ds ih =>
    rw [List.dropWhile_cons]
    by_cases hd : isWs d = true
    · rw [if_pos hd]
      exact ih
    · rw [if_neg hd]
      have hf : isWs d = false := by simpa using hd
      simp [noLeadWs, hf]

theorem noTwoWs_dropWhile {l : List Char} (h : noTwoWs l = true) :
    noTwoWs (l.dropWhile isWs) = true := by
  induction l with
  | nil => exact h
  | cons d ds ih =>
    rw [noTwoWs_cons, Bool.and_eq_true] at h
    rw [List.dropWhile_cons]
    by_cases hd : isWs d = true
    · rw [if_pos hd]
      exact ih h.2
    · rw [if_neg hd, noTwoWs_cons, Bool.and_eq_true]
      exact h

theorem mem_stripTrail {c : Char} :
    ∀ {l : List Char}, c ∈ stripTrail l → c ∈ l := by
  intro l
  induction l with
  | nil => intro h; exact h
  | cons d ds ih =>
    intro h
    rw [stripTrail_cons] at h
    split_ifs at h with hc
    · exact absurd h (List.not_mem_nil c)
    · rcases List.mem_cons.mp h with h1 | h1
      · exact h1 ▸ List.mem_cons_self d ds
      · exact List.mem_cons_of_mem d (ih h1)

theorem noLeadWs_stripTrail {l : List Char} (h : noLeadWs l = true) :
    noLeadWs (stripTrail l) = true := by
  cases l with
  | nil => rfl
  | cons d ds =>
    have hf : isWs d = false := by simpa [noLeadWs] using h
    rw [stripTrail_cons, if_neg (by simp [hf])]
    simp [noLeadWs, hf]

theorem noTwoWs_stripTrail {l : List Char} (h : noTwoWs l = true) :
    noTwoWs (stripTrail l) = true := by
  induction l with
  | nil => exact h
  | cons d ds ih =>
    rw [noTwoWs_cons, Bool.and_eq_true] at h
    rw [stripTrail_cons]
    split_ifs with hc
    · rfl
    · rw [noTwoWs_cons, Bool.and_eq_true]
      refine ⟨?_, ih h.2⟩
      rcases Bool.or_eq_true_iff.mp h.1 with h1 | h1
      · exact Bool.or_eq_true_iff.mpr (Or.inl h1)
      · exact Bool.or_eq_true_iff.mpr (Or.inr (noLeadWs_stripTrail h1))

theorem noTrailWs_stripTrail (l : List Char) :
    noTrailWs (stripTrail l) = true := by
  induction l with
  | nil => rfl
  | cons d ds ih =>
    rw [stripTrail_cons]
    split_ifs with hc
    · rfl
    · cases hr : stripTrail ds with
      | nil =>
        have hf : isWs d = false := by
          rcases Bool.eq_false_or_eq_true (isWs d) with h1 | h1
          · exact absurd ⟨h1, hr⟩ hc
          · exact h1
        simp [noTrailWs, hf]
      | cons e es =>
        show noTrailWs (d :: e :: es) = true
        have : noTrailWs (d :: e :: es) = noTrailWs (e :: es) := rfl
        rw [this, ← hr]
        exact ih

theorem collapseAux_eq_self :
    ∀ (l : List Char) (b : Bool),
      (∀ c ∈ l, isWs c = true → c = ' ') → noTwoWs l = true →
      (b = false ∨ noLeadWs l = true) → collapseAux b l = l := by
  intro l
  induction l with
  | nil => intro b _ _ _; rfl
  | cons d ds ih =>
    intro b hos h2 hb
    rw [noTwoWs_cons, Bool.and_eq_true] at h2
    by_cases hws : isWs d = true
    · have hd : d = ' ' := hos d (List.mem_cons_self d ds) hws
      have hbf : b = false := by
        rcases hb with h | h
        · exact h
        · exfalso
          have : noLeadWs (d :: ds) = false := by simp [noLeadWs, hws]
          rw [this] at h
          exact Bool.false_ne_true h
      subst hbf
      rw [collapseAux_cons_ws hws, if_neg Bool.false_ne_true]
      have hlds : noLeadWs ds = true := by
        rcases Bool.or_eq_true_iff.mp h2.1 with h1 | h1
        · rw [hws] at h1
          exact absurd h1 (by simp)
        · exact h1
      rw [ih true (fun c hc => hos c (List.mem_cons_of_mem d hc)) h2.2
        (Or.inr hlds), hd]
    · have hf : isWs d = false := by simpa using hws
      rw [collapseAux_cons_not_ws hf,
        ih false (fun c hc => hos c (List.mem_cons_of_mem d hc)) h2.2
          (Or.inl rfl)]

theorem dropWhile_eq_self_of_noLeadWs {l : List Char}
    (h : noLeadWs l = true) : l.dropWhile isWs = l := by
  cases l with
  | nil => rfl
  | cons d ds =>
    have hf : isWs d = false := by simpa [noLeadWs] using h
    rw [List.dropWhile_cons, if_neg (by simp [hf])]

theorem stripTrail_eq_self :
    ∀ {l : List Char}, noTrailWs l = true → stripTrail l = l := by
  intro l
  induction l with
  | nil => intro _; rfl
  | cons d ds ih =>
    intro h
    cases ds with
    | nil =>
      have hf : isWs d = false := by simpa [noTrailWs] using h
      rw [stripTrail_cons, if_neg (by simp [hf])]
      rfl
    | cons e es =>
      have hds : noTrailWs (e :: es) = true := by simpa [noTrailWs] using h
      have hst : stripTrail (e :: es) = e :: es := ih hds
      rw [stripTrail_cons, hst, if_neg (by simp)]

/-- C5: `clean_text` is idempotent — deleting bullets, collapsing
whitespace runs to single spaces and trimming, applied twice, equals one
application. -/
theorem C5_clean_text_idempotent (s : String) :
    clean_text (clean_text s) = clean_text s := by
  have hmem : ∀ c ∈ (clean_text s).data,
      c = ' ' ∨ (c ∈ s.data.filter (fun x => !isBullet x) ∧ isWs c = false) := by
    intro c hc
    exact mem_collapseAux (mem_of_mem_dropWhileChar (mem_stripTrail hc))
  have hos : ∀ c ∈ (clean_text s).data, isWs c = true → c = ' ' := by
    intro c hc hwsc
    rcases hmem c hc with h | ⟨_, hwf⟩
    · exact h
    · rw [hwsc] at hwf
      exact absurd hwf (by simp)
  have hnb : ∀ c ∈ (clean_text s).data, (!isBullet c) = true := by
    intro c hc
    rcases hmem c hc with h | ⟨hf, _⟩
    · rw [h]; rfl
    · exact (List.mem_filter.mp hf).2
  have h2 : noTwoWs (clean_text s).data = true :=
    noTwoWs_stripTrail (noTwoWs_dropWhile (noTwoWs_collapseAux _ false))
  have hlead : noLeadWs (clean_text s).data = true :=
    noLeadWs_stripTrail (noLeadWs_dropWhile _)
  have htrail : noTrailWs (clean_text s).data = true :=
    noTrailWs_stripTrail _
  show String.mk
      (stripEnds (collapse ((clean_text s).data.filter (fun c => !isBullet c))))
      = clean_text s
  rw [List.filter_eq_self.mpr hnb]
  unfold collapse stripEnds
  rw [collapseAux_eq_self _ false hos h2 (Or.inl rfl),
    dropWhile_eq_self_of_noLeadWs hlead, stripTrail_eq_self htrail]
